import Mathlib

/-!
# Verification of the mssql-ts-ffi resource-lifecycle layer

A shallow embedding of the resource-lifecycle and serialization core of the
`mssql-ts-ffi` driver: the `QueryStream` cursor protocol (`core/stream.ts`),
the `Transaction` state machine (`core/transaction.ts`), the `MssqlConnection`
disposal cascade (`core/connection.ts`), the command/parameter serialization
helpers (`core/connection.ts`), and the Rust-side pool dedup/refcount registry
(modelled from its specification, since the Rust source is outside this tree).

Boundary (FFI) calls are recorded as an explicit trace of `BOp` events, so
ordering and exactly-once properties are statements about the emitted trace.
Callback invocation is likewise recorded as an event.
-/

namespace Mssql

/-- A boundary (FFI) operation, or a close-callback invocation, observed in a
trace.  Handles and transaction ids are `Nat`. -/
inductive BOp : Type
  | streamNext (cursorId : Nat)
  | streamClose (cursorId : Nat)
  | rollbackTx (txId : Nat)
  | commitTx (txId : Nat)
  | queryCall (connId : Nat)
  | poolRelease (poolId connId : Nat)
  | disconnect (connId : Nat)
  | poolCreate (poolId : Nat)
  | poolDestroy (poolId : Nat)
  | callbackInvoke (cbId : Nat)
  deriving DecidableEq, Repr

/-- Classifies the trace events that stream cleanup may emit: boundary cursor
closes and close-callback invocations. -/
def IsStreamCleanupOp (e : BOp) : Prop :=
  (∃ c, e = BOp.streamClose c) ∨ ∃ cb, e = BOp.callbackInvoke cb

/-- Classifies the trace events that the disposal cascades may emit before the
final pool-release/disconnect routing: stream cleanup plus transaction
rollbacks. -/
def IsCleanupOp (e : BOp) : Prop :=
  IsStreamCleanupOp e ∨ ∃ t, e = BOp.rollbackTx t

/-! ## QueryStream (`core/stream.ts`)

State of one `QueryStream`: the `#done` and `#closed` flags and the list of
registered (not yet invoked) `_onClose` callbacks, identified by `Nat` ids. -/

structure StreamState : Type where
  done : Bool
  closed : Bool
  callbacks : List Nat
  deriving DecidableEq, Repr

/-- A fresh stream, as constructed by `new QueryStream(cursorId, ffi)`. -/
def StreamState.fresh : StreamState := ⟨false, false, []⟩

/-- `QueryStream._onClose(cb)`: if already closed, invoke `cb` immediately
(synchronously); otherwise push it onto the callback list. -/
def onClose (s : StreamState) (cb : Nat) : StreamState × List BOp :=
  if s.closed then (s, [BOp.callbackInvoke cb])
  else ({ s with callbacks := s.callbacks ++ [cb] }, [])

/-- `QueryStream.close()` for cursor id `c`: on the first call, set `#closed`,
issue the boundary `streamClose`, then invoke every registered callback once
and clear the list; later calls do nothing. -/
def closeStream (c : Nat) (s : StreamState) : StreamState × List BOp :=
  if s.closed then (s, [])
  else ({ s with closed := true, callbacks := [] },
        BOp.streamClose c :: s.callbacks.map BOp.callbackInvoke)

/-- What the boundary `streamNext` returns for one fetch: end-of-data (`null`),
a row, or a row-shaped `__error` payload. -/
inductive StreamResp : Type
  | endOfData
  | row (r : Nat)
  | errorPayload (msg : String)
  deriving DecidableEq, Repr

/-- Result of one `#fetchNext()` call: a row, no row (`null`), or a thrown
stream error. -/
inductive FetchResult : Type
  | noRow
  | someRow (r : Nat)
  | thrown (msg : String)
  deriving DecidableEq, Repr

/-- `QueryStream.#fetchNext()` for cursor id `c`, with the boundary's answer
`resp` supplied as an oracle: when `#done` or `#closed`, return `null` without
touching the boundary; otherwise issue `streamNext` and interpret the reply. -/
def fetchNext (c : Nat) (s : StreamState) (resp : StreamResp) :
    StreamState × List BOp × FetchResult :=
  if s.done || s.closed then (s, [], FetchResult.noRow)
  else
    match resp with
    | StreamResp.endOfData => (s, [BOp.streamNext c], FetchResult.noRow)
    | StreamResp.row r => (s, [BOp.streamNext c], FetchResult.someRow r)
    | StreamResp.errorPayload m => (s, [BOp.streamNext c], FetchResult.thrown m)

/-- One run of `for await (const row of stream)` (the `[Symbol.asyncIterator]`
loop), driven by a finite oracle of boundary replies.  The loop runs while
`#done` is unset; a `null` fetch sets `#done` and breaks; an error payload
aborts; the `finally` block calls `close()` in every case (also when the
oracle — i.e. the consumer — stops early).  Returns the final state, the
emitted trace, the yielded rows, and a thrown error if any. -/
def runIter (c : Nat) (s : StreamState) :
    List StreamResp → StreamState × List BOp × List Nat × Option String
  | [] =>
      ((closeStream c s).1, (closeStream c s).2, [], none)
  | resp :: rest =>
      if s.done then
        ((closeStream c s).1, (closeStream c s).2, [], none)
      else
        match fetchNext c s resp with
        | (s', evs, FetchResult.noRow) =>
            ((closeStream c { s' with done := true }).1,
              evs ++ (closeStream c { s' with done := true }).2, [], none)
        | (s', evs, FetchResult.someRow r) =>
            ((runIter c s' rest).1, evs ++ (runIter c s' rest).2.1,
              r :: (runIter c s' rest).2.2.1, (runIter c s' rest).2.2.2)
        | (s', evs, FetchResult.thrown m) =>
            ((closeStream c s').1, evs ++ (closeStream c s').2, [], some m)

/-! ## Transaction (`core/transaction.ts`)

A `Transaction` holds `#committed`, `#rolledBack` and the set of streams it
tracks (`_trackStream`).  Tracked streams live in a shared heap keyed by
cursor id, since the same `QueryStream` object is also tracked by its
connection. -/

structure TxState : Type where
  id : Nat
  committed : Bool
  rolledBack : Bool
  streams : List Nat
  deriving DecidableEq, Repr

/-- `Transaction.isActive`: neither committed nor rolled back. -/
def TxState.isActive (tx : TxState) : Bool :=
  !tx.committed && !tx.rolledBack

/-- The heap of live `QueryStream` objects, keyed by cursor id. -/
def Heap : Type := List (Nat × StreamState)

/-- Look a stream up in the heap. -/
def hFind : Heap → Nat → Option StreamState
  | [], _ => none
  | (k, s) :: rest, c => if k = c then some s else hFind rest c

/-- Replace the stream stored under `c`. -/
def hSet : Heap → Nat → StreamState → Heap
  | [], _, _ => []
  | (k, s) :: rest, c, s' =>
      if k = c then (k, s') :: rest else (k, s) :: hSet rest c s'

/-- Close the stream with cursor id `c` in the heap (`s.close()` on a tracked
stream); a dangling id is a no-op. -/
def heapCloseStream (h : Heap) (c : Nat) : Heap × List BOp :=
  match hFind h c with
  | none => (h, [])
  | some s => (hSet h c (closeStream c s).1, (closeStream c s).2)

/-- Close a list of tracked streams in order (the copy-then-clear loops in
`#closeAllStreams` / `#syncCleanup` / `#cleanup`), errors swallowed. -/
def closeStreamList (h : Heap) : List Nat → Heap × List BOp
  | [] => (h, [])
  | c :: rest =>
      ((closeStreamList (heapCloseStream h c).1 rest).1,
        (heapCloseStream h c).2 ++ (closeStreamList (heapCloseStream h c).1 rest).2)

/-- `Transaction.#closeAllStreams()`: close every tracked stream and clear the
tracking list. -/
def txCloseAllStreams (h : Heap) (tx : TxState) : Heap × TxState × List BOp :=
  ((closeStreamList h tx.streams).1, { tx with streams := [] },
    (closeStreamList h tx.streams).2)

/-- `Transaction.commit()`, with `ok` the oracle for whether the boundary
commit call succeeds: fail fast when not active (no boundary call); otherwise
issue the commit and set `#committed` only on success. -/
def txCommit (tx : TxState) (ok : Bool) :
    TxState × List BOp × Except String Unit :=
  if !tx.isActive then
    (tx, [], Except.error "Transaction is no longer active")
  else if ok then
    ({ tx with committed := true }, [BOp.commitTx tx.id], Except.ok ())
  else
    (tx, [BOp.commitTx tx.id], Except.error "Commit failed")

/-- `Transaction.rollback()`, with `ok` the oracle for the boundary rollback
call: fail fast when not active; otherwise issue the rollback and set
`#rolledBack` only on success. -/
def txRollback (tx : TxState) (ok : Bool) :
    TxState × List BOp × Except String Unit :=
  if !tx.isActive then
    (tx, [], Except.error "Transaction is no longer active")
  else if ok then
    ({ tx with rolledBack := true }, [BOp.rollbackTx tx.id], Except.ok ())
  else
    (tx, [BOp.rollbackTx tx.id], Except.error "Rollback failed")

/-- `Transaction[Symbol.asyncDispose]()`, with `rollbackOk` the oracle for the
implicit rollback's boundary call: close all tracked streams, and if still
active issue one rollback — its error caught and swallowed, so `#rolledBack`
is set and nothing is thrown regardless of `rollbackOk`. -/
def txAsyncDispose (h : Heap) (tx : TxState) (rollbackOk : Bool) :
    Heap × TxState × List BOp :=
  let a := txCloseAllStreams h tx
  if a.2.1.isActive then
    let _ := rollbackOk
    (a.1, { a.2.1 with rolledBack := true }, a.2.2 ++ [BOp.rollbackTx a.2.1.id])
  else
    (a.1, a.2.1, a.2.2)

/-- `Transaction._forceInactive()` (the `Symbol.dispose` path): close all
tracked streams, then mark rolled back without any boundary rollback call. -/
def txForceInactive (h : Heap) (tx : TxState) : Heap × TxState × List BOp :=
  let a := txCloseAllStreams h tx
  if a.2.1.isActive then
    (a.1, { a.2.1 with rolledBack := true }, a.2.2)
  else
    (a.1, a.2.1, a.2.2)

/-! ## MssqlConnection (`core/connection.ts`)

A connection holds its handle, the owning pool's handle (null when
standalone), the `#disposed` and `#hasError` flags, the connection-level
tracked stream ids, the tracked transactions, and the shared stream heap. -/

structure ConnState : Type where
  connId : Nat
  poolId : Option Nat
  disposed : Bool
  hasError : Bool
  streams : List Nat
  transactions : List TxState
  heap : List (Nat × StreamState)
  deriving DecidableEq, Repr

/-- The transaction-disposal loop of `MssqlConnection.#cleanup()`: dispose
every tracked transaction asynchronously (each closes its streams then rolls
back if active), errors swallowed. -/
def disposeTxList (h : Heap) : List TxState → Heap × List BOp
  | [] => (h, [])
  | tx :: rest =>
      ((disposeTxList (txAsyncDispose h tx true).1 rest).1,
        (txAsyncDispose h tx true).2.2 ++
          (disposeTxList (txAsyncDispose h tx true).1 rest).2)

/-- `MssqlConnection.#cleanup()`: dispose all tracked transactions, then close
any remaining orphan streams; both tracking sets are cleared. -/
def connCleanup (st : ConnState) : ConnState × List BOp :=
  let a := disposeTxList st.heap st.transactions
  let b := closeStreamList a.1 st.streams
  ({ st with heap := b.1, transactions := [], streams := [] }, a.2 ++ b.2)

/-- The transaction loop of `MssqlConnection.#syncCleanup()`: record whether
any transaction was still active, force-deactivate each (no rollback call). -/
def syncCleanupTxList (h : Heap) : List TxState → Heap × List BOp × Bool
  | [] => (h, [], false)
  | tx :: rest =>
      ((syncCleanupTxList (txForceInactive h tx).1 rest).1,
        (txForceInactive h tx).2.2 ++
          (syncCleanupTxList (txForceInactive h tx).1 rest).2.1,
        tx.isActive || (syncCleanupTxList (txForceInactive h tx).1 rest).2.2)

/-- `MssqlConnection.#syncCleanup()`: force-deactivate all transactions, then
close all tracked streams; returns whether any transaction was still active. -/
def connSyncCleanup (st : ConnState) : ConnState × List BOp × Bool :=
  let a := syncCleanupTxList st.heap st.transactions
  let b := closeStreamList a.1 st.streams
  ({ st with heap := b.1, transactions := [], streams := [] },
    a.2.1 ++ b.2, a.2.2)

/-- The routing decision `this.#poolId !== null && !this.#hasError` at the end
of `[Symbol.asyncDispose]`: release to the pool, or disconnect. -/
def connFinalOp (st : ConnState) : BOp :=
  match st.poolId with
  | some p =>
      if !st.hasError then BOp.poolRelease p st.connId
      else BOp.disconnect st.connId
  | none => BOp.disconnect st.connId

/-- `MssqlConnection[Symbol.asyncDispose]()`: once, run the async cleanup
cascade, then release to the pool when pool-owned and error-free, else
disconnect. -/
def connAsyncDispose (st : ConnState) : ConnState × List BOp :=
  if st.disposed then (st, [])
  else
    ((connCleanup { st with disposed := true }).1,
      (connCleanup { st with disposed := true }).2 ++
        [connFinalOp (connCleanup { st with disposed := true }).1])

/-- The routing decision
`this.#poolId !== null && !this.#hasError && !hadActiveTx` at the end of
`[Symbol.dispose]`: release to the pool, or disconnect (evict). -/
def connSyncFinalOp (st : ConnState) (hadActiveTx : Bool) : BOp :=
  match st.poolId with
  | some p =>
      if !st.hasError && !hadActiveTx then BOp.poolRelease p st.connId
      else BOp.disconnect st.connId
  | none => BOp.disconnect st.connId

/-- `MssqlConnection[Symbol.dispose]()`: once, run the synchronous cleanup,
then release to the pool only when pool-owned, error-free, and no transaction
was still active; otherwise disconnect (evict). -/
def connSyncDispose (st : ConnState) : ConnState × List BOp :=
  if st.disposed then (st, [])
  else
    ((connSyncCleanup { st with disposed := true }).1,
      (connSyncCleanup { st with disposed := true }).2.1 ++
        [connSyncFinalOp (connSyncCleanup { st with disposed := true }).1
          (connSyncCleanup { st with disposed := true }).2.2])

/-- `MssqlConnection.#ensureOpen(opts)` followed by the boundary query of
`MssqlConnection.query()`: throw when disposed, fail fast when the command's
transaction is no longer active (no boundary call), otherwise issue the query;
a boundary failure (`queryOk = false`) sets `#hasError` and throws. -/
def connQuery (st : ConnState) (tx : Option TxState) (queryOk : Bool) :
    ConnState × List BOp × Except String Unit :=
  if st.disposed then
    (st, [], Except.error "Connection is closed")
  else
    match tx with
    | some t =>
        if !t.isActive then
          (st, [], Except.error "Transaction is no longer active")
        else if queryOk then
          (st, [BOp.queryCall st.connId], Except.ok ())
        else
          ({ st with hasError := true }, [BOp.queryCall st.connId],
            Except.error "Query failed")
    | none =>
        if queryOk then
          (st, [BOp.queryCall st.connId], Except.ok ())
        else
          ({ st with hasError := true }, [BOp.queryCall st.connId],
            Except.error "Query failed")

/-! ## Command serialization (`serializeCommand` / `serializeParams` /
`serializeValue` in `core/connection.ts`)

A parameter value is `null`/`undefined`, a primitive, a `Date` (carried as its
`toISOString()` text), or a `Uint8Array`; a parameter entry is either such a
plain value or the typed-parameter shape `{ value, type, output? }`. -/

inductive PlainValue : Type
  | nullV
  | strV (s : String)
  | numV (n : Int)
  | boolV (b : Bool)
  | dateV (iso : String)
  | bytesV (bs : List Nat)
  deriving DecidableEq, Repr

/-- One entry of a `Params` record: a plain value, or the typed-parameter
shape (an object with `value` and `type` fields and an optional truthy
`output` flag). -/
inductive ParamInput : Type
  | plain (v : PlainValue)
  | typed (v : PlainValue) (type : String) (output : Bool)
  deriving DecidableEq, Repr

/-- A serialized JSON value as placed in the command envelope. -/
inductive JsonValue : Type
  | nullJ
  | strJ (s : String)
  | numJ (n : Int)
  | boolJ (b : Bool)
  deriving DecidableEq, Repr

/-- The standard base64 alphabet. -/
def b64Alphabet : List Char :=
  "ABCDEFGHIJKLMNOPQRSTUVWXYZabcdefghijklmnopqrstuvwxyz0123456789+/".toList

/-- The base64 digit for a 6-bit value. -/
def b64Char (n : Nat) : Char := b64Alphabet.getD n 'A'

/-- Position of a character in the base64 alphabet. -/
def b64Index (c : Char) : Option Nat := b64Alphabet.indexOf? c

/-- Base64-encode a byte list (the effect of
`btoa(String.fromCharCode(...bytes))` on a `Uint8Array`). -/
def base64EncodeL : List Nat → List Char
  | [] => []
  | [a] =>
      [b64Char (a / 4), b64Char (a % 4 * 16), '=', '=']
  | [a, b] =>
      [b64Char (a / 4), b64Char (a % 4 * 16 + b / 16), b64Char (b % 16 * 4), '=']
  | a :: b :: c :: rest =>
      b64Char (a / 4) :: b64Char (a % 4 * 16 + b / 16) ::
        b64Char (b % 16 * 4 + c / 64) :: b64Char (c % 64) ::
        base64EncodeL rest

/-- Base64-encode a byte list to text. -/
def base64Encode (bs : List Nat) : String := String.mk (base64EncodeL bs)

/-- Base64-decode (the effect of `atob` plus `charCodeAt`); `none` on
malformed input. -/
def base64DecodeL : List Char → Option (List Nat)
  | [] => some []
  | c1 :: c2 :: c3 :: c4 :: rest =>
      if c3 = '=' ∧ c4 = '=' ∧ rest = [] then
        match b64Index c1, b64Index c2 with
        | some a, some b =>
            if b % 16 = 0 then some [a * 4 + b / 16] else none
        | _, _ => none
      else if c4 = '=' ∧ rest = [] then
        match b64Index c1, b64Index c2, b64Index c3 with
        | some a, some b, some c =>
            if c % 4 = 0 then some [a * 4 + b / 16, b % 16 * 16 + c / 4]
            else none
        | _, _, _ => none
      else
        match b64Index c1, b64Index c2, b64Index c3, b64Index c4,
            base64DecodeL rest with
        | some a, some b, some c, some d, some tail =>
            some ((a * 4 + b / 16) :: (b % 16 * 16 + c / 4) ::
              (c % 4 * 64 + d) :: tail)
        | _, _, _, _, _ => none
  | _ => none

/-- Base64-decode text to bytes. -/
def base64Decode (s : String) : Option (List Nat) := base64DecodeL s.data

/-- `serializeValue(val)`: `null`/`undefined` → `null`; `Date` → its
ISO-8601 text; `Uint8Array` → its base64 text; anything else passes
through. -/
def serializeValue : PlainValue → JsonValue
  | PlainValue.nullV => JsonValue.nullJ
  | PlainValue.strV s => JsonValue.strJ s
  | PlainValue.numV n => JsonValue.numJ n
  | PlainValue.boolV b => JsonValue.boolJ b
  | PlainValue.dateV iso => JsonValue.strJ iso
  | PlainValue.bytesV bs => JsonValue.strJ (base64Encode bs)

/-- One element of the serialized `params` array: name, serialized value,
declared type (`null` unless a typed parameter), and the `output` flag (absent
unless truthy). -/
structure SerializedParam : Type where
  name : String
  value : JsonValue
  type : Option String
  output : Bool
  deriving DecidableEq, Repr

/-- The body of the `serializeParams` mapping for one `[name, raw]` entry:
detect the typed-parameter shape, then serialize its value, keeping declared
type and output flag for typed parameters and `type: null` otherwise. -/
def serializeParam (name : String) : ParamInput → SerializedParam
  | ParamInput.plain v => ⟨name, serializeValue v, none, false⟩
  | ParamInput.typed v ty out => ⟨name, serializeValue v, some ty, out⟩

/-- `serializeParams(params)`: map every entry. -/
def serializeParams (params : List (String × ParamInput)) :
    List SerializedParam :=
  params.map fun p => serializeParam p.1 p.2

/-! ## Pool dedup / refcount registry

Modelled from the spec: the Rust-side `store_pool` / `remove_pool` registry
(`POOL_DEDUP` plus per-pool `ref_count`) is not part of the TypeScript tree;
per the spec, `openPool` computes the dedup key and either increments an
existing pool's refcount, returning its handle unchanged, or creates a new
boundary pool registered with refcount 1; `closePool` decrements the refcount
and at zero destroys the boundary pool and deregisters the key. -/

structure PoolEntry : Type where
  key : String
  poolId : Nat
  refCount : Nat
  deriving DecidableEq, Repr

structure PoolRegistry : Type where
  pools : List PoolEntry
  nextId : Nat
  deriving DecidableEq, Repr

/-- Modelled from the spec: `store_pool` — on a dedup hit increment the
existing entry's refcount and return its pool id (no new boundary pool);
otherwise create a boundary pool with a fresh id, registered with
refcount 1. -/
def storePool (r : PoolRegistry) (key : String) :
    PoolRegistry × Nat × List BOp :=
  match r.pools.find? (fun e => e.key = key) with
  | some e =>
      ({ r with pools := r.pools.map fun e' =>
          if e'.key = key then { e' with refCount := e'.refCount + 1 } else e' },
        e.poolId, [])
  | none =>
      ({ pools := ⟨key, r.nextId, 1⟩ :: r.pools, nextId := r.nextId + 1 },
        r.nextId, [BOp.poolCreate r.nextId])

/-- Modelled from the spec: `remove_pool` — decrement the refcount of the
entry holding this pool id; at zero, destroy the boundary pool and deregister
the key. -/
def removePool (r : PoolRegistry) (pid : Nat) : PoolRegistry × List BOp :=
  match r.pools.find? (fun e => e.poolId = pid) with
  | none => (r, [])
  | some e =>
      if e.refCount ≤ 1 then
        ({ r with pools := r.pools.filter fun e' => e'.poolId ≠ pid },
          [BOp.poolDestroy pid])
      else
        ({ r with pools := r.pools.map fun e' =>
            if e'.poolId = pid then { e' with refCount := e'.refCount - 1 } else e' },
          [])

/-- `n` successive opens of the same identity: the registry after all opens,
the pool id returned by each open, and the boundary trace of each open, in
order. -/
def openN (r : PoolRegistry) (key : String) :
    Nat → PoolRegistry × List Nat × List (List BOp)
  | 0 => (r, [], [])
  | n + 1 =>
      ((openN (storePool r key).1 key n).1,
        (storePool r key).2.1 :: (openN (storePool r key).1 key n).2.1,
        (storePool r key).2.2 :: (openN (storePool r key).1 key n).2.2)

/-- `n` successive closes of the same pool id: the registry after all closes
and the trace of each close, in order. -/
def closeN (r : PoolRegistry) (pid : Nat) : Nat → PoolRegistry × List (List BOp)
  | 0 => (r, [])
  | n + 1 =>
      ((closeN (removePool r pid).1 pid n).1,
        (removePool r pid).2 :: (closeN (removePool r pid).1 pid n).2)

/-! ## Lemmas about streams -/

theorem closeStream_of_closed (c : Nat) (s : StreamState) (h : s.closed = true) :
    closeStream c s = (s, []) := by
  simp [closeStream, h]

theorem closeStream_closed (c : Nat) (s : StreamState) :
    (closeStream c s).1.closed = true := by
  unfold closeStream
  by_cases h : s.closed <;> simp [h]

theorem closeStream_events_of_open (c : Nat) (s : StreamState)
    (h : s.closed = false) :
    (closeStream c s).2 = BOp.streamClose c :: s.callbacks.map BOp.callbackInvoke := by
  simp [closeStream, h]

theorem isStreamCleanupOp_closeStream (c : Nat) (s : StreamState) :
    ∀ e ∈ (closeStream c s).2, IsStreamCleanupOp e := by
  intro e he
  unfold closeStream at he
  by_cases h : s.closed
  · simp [h] at he
  · simp only [h, Bool.false_eq_true, if_false, List.mem_cons] at he
    rcases he with rfl | he
    · exact Or.inl ⟨c, rfl⟩
    · rcases List.mem_map.mp he with ⟨cb, _, rfl⟩
      exact Or.inr ⟨cb, rfl⟩

theorem isStreamCleanupOp_heapCloseStream (h : Heap) (c : Nat) :
    ∀ e ∈ (heapCloseStream h c).2, IsStreamCleanupOp e := by
  unfold heapCloseStream
  cases hf : hFind h c with
  | none => simp
  | some s => simpa using isStreamCleanupOp_closeStream c s

theorem isStreamCleanupOp_closeStreamList (h : Heap) (ids : List Nat) :
    ∀ e ∈ (closeStreamList h ids).2, IsStreamCleanupOp e := by
  induction ids generalizing h with
  | nil => simp [closeStreamList]
  | cons c rest ih =>
      intro e he
      simp only [closeStreamList, List.mem_append] at he
      rcases he with he | he
      · exact isStreamCleanupOp_heapCloseStream h c e he
      · exact ih _ e he

/-! ## C6 / C7: cursor protocol -/

theorem fetchNext_of_done_or_closed (c : Nat) (s : StreamState)
    (resp : StreamResp) (h : s.done = true ∨ s.closed = true) :
    fetchNext c s resp = (s, [], FetchResult.noRow) := by
  rcases h with h | h <;> simp [fetchNext, h]

theorem runIter_of_done_or_closed (c : Nat) (s : StreamState)
    (resps : List StreamResp) (h : s.done = true ∨ s.closed = true) :
    (runIter c s resps).2.2.1 = [] ∧
      ∀ n, BOp.streamNext n ∉ (runIter c s resps).2.1 := by
  cases resps with
  | nil =>
      refine ⟨rfl, fun n hn => ?_⟩
      simp only [runIter] at hn
      rcases isStreamCleanupOp_closeStream c s _ hn with ⟨_, h⟩ | ⟨_, h⟩ <;>
        exact BOp.noConfusion h
  | cons resp rest =>
      rcases h with h | h
      · refine ⟨by simp [runIter, h], fun n hn => ?_⟩
        simp only [runIter, h, if_true] at hn
        rcases isStreamCleanupOp_closeStream c s _ hn with ⟨_, h'⟩ | ⟨_, h'⟩ <;>
          exact BOp.noConfusion h'
      · by_cases hd : s.done = true
        · refine ⟨by simp [runIter, hd], fun n hn => ?_⟩
          simp only [runIter, hd, if_true] at hn
          rcases isStreamCleanupOp_closeStream c s _ hn with ⟨_, h'⟩ | ⟨_, h'⟩ <;>
            exact BOp.noConfusion h'
        · have hfetch : fetchNext c s resp = (s, [], FetchResult.noRow) :=
            fetchNext_of_done_or_closed c s resp (Or.inr h)
          refine ⟨?_, fun n hn => ?_⟩
          · simp [runIter, hd, hfetch]
          · simp only [runIter, hd, if_false, hfetch, List.nil_append] at hn
            rcases isStreamCleanupOp_closeStream c _ _ hn with ⟨_, h'⟩ | ⟨_, h'⟩ <;>
              exact BOp.noConfusion h'

theorem runIter_closes (c : Nat) (s : StreamState) (resps : List StreamResp) :
    (runIter c s resps).1.closed = true := by
  induction resps generalizing s with
  | nil => simpa [runIter] using closeStream_closed c s
  | cons resp rest ih =>
      by_cases hd : s.done = true
      · simpa [runIter, hd] using closeStream_closed c s
      · by_cases hc : s.closed = true
        · have hfetch : fetchNext c s resp = (s, [], FetchResult.noRow) :=
            fetchNext_of_done_or_closed c s resp (Or.inr hc)
          simpa [runIter, hd, hfetch] using closeStream_closed c _
        · cases resp with
          | endOfData =>
              simp only [runIter, hd, if_false, fetchNext,
                Bool.not_eq_true] at *
              simpa [hd, hc] using closeStream_closed c _
          | row r =>
              have : fetchNext c s (StreamResp.row r)
                  = (s, [BOp.streamNext c], FetchResult.someRow r) := by
                simp [fetchNext, hd, hc]
              simpa [runIter, hd, this] using ih _
          | errorPayload m =>
              have : fetchNext c s (StreamResp.errorPayload m)
                  = (s, [BOp.streamNext c], FetchResult.thrown m) := by
                simp [fetchNext, hd, hc]
              simpa [runIter, hd, this] using closeStream_closed c _

/-- C6: once a `QueryStream` is closed or exhausted, it yields nothing: a
fetch on a done-or-closed stream returns no row, makes no boundary call, and
leaves the state unchanged; iteration over a done-or-closed stream yields no
rows and issues no boundary `streamNext`; and every iteration run ends with
the stream closed (so the sequence is never restartable). -/
theorem stream_not_restartable (c : Nat) (s : StreamState) :
    (∀ resp, (s.done = true ∨ s.closed = true) →
      fetchNext c s resp = (s, [], FetchResult.noRow)) ∧
    (∀ resps, (s.done = true ∨ s.closed = true) →
      (runIter c s resps).2.2.1 = [] ∧
        ∀ n, BOp.streamNext n ∉ (runIter c s resps).2.1) ∧
    (∀ resps, (runIter c s resps).1.closed = true) :=
  ⟨fun resp h => fetchNext_of_done_or_closed c s resp h,
   fun resps h => runIter_of_done_or_closed c s resps h,
   fun resps => runIter_closes c s resps⟩

theorem stream_not_restartable_witness :
    fetchNext 7 ⟨true, true, []⟩ (StreamResp.row 1) = (⟨true, true, []⟩, [], FetchResult.noRow) ∧
    (runIter 7 ⟨true, true, []⟩ [StreamResp.row 1]).2.2.1 = [] :=
  ⟨(stream_not_restartable 7 ⟨true, true, []⟩).1 (StreamResp.row 1) (Or.inl rfl),
   ((stream_not_restartable 7 ⟨true, true, []⟩).2.1 [StreamResp.row 1] (Or.inl rfl)).1⟩

/-- C7: close callbacks fire exactly once: registering a callback after
`close()` has run invokes it immediately and synchronously without changing
state; the first `close()` on an open stream issues the boundary close and
invokes each registered callback exactly as many times as it was registered;
any later `close()` performs no boundary operation, invokes nothing, and
leaves the state unchanged — so across the first close and all later ones each
registered callback is invoked exactly once. -/
theorem cursor_close_callbacks_once (c : Nat) (s : StreamState) (cb : Nat) :
    (s.closed = true → onClose s cb = (s, [BOp.callbackInvoke cb])) ∧
    (s.closed = false →
      (closeStream c s).2
          = BOp.streamClose c :: s.callbacks.map BOp.callbackInvoke ∧
      ((closeStream c s).2 ++ (closeStream c (closeStream c s).1).2).count
          (BOp.callbackInvoke cb) = s.callbacks.count cb) ∧
    (closeStream c (closeStream c s).1 = ((closeStream c s).1, [])) := by
  refine ⟨fun h => by simp [onClose, h], fun h => ?_, ?_⟩
  · refine ⟨closeStream_events_of_open c s h, ?_⟩
    rw [closeStream_of_closed c _ (closeStream_closed c s),
      closeStream_events_of_open c s h]
    simp only [List.append_nil, List.count_cons]
    rw [List.count_map_of_injective _ BOp.callbackInvoke
      (fun a b hab => by injection hab) cb]
    simp
  · exact closeStream_of_closed c _ (closeStream_closed c s)

theorem cursor_close_callbacks_once_witness :
    onClose ⟨false, true, []⟩ 4 = (⟨false, true, []⟩, [BOp.callbackInvoke 4]) ∧
    ((closeStream 7 ⟨false, false, [4]⟩).2 ++
        (closeStream 7 (closeStream 7 ⟨false, false, [4]⟩).1).2).count
      (BOp.callbackInvoke 4) = 1 :=
  ⟨(cursor_close_callbacks_once 7 ⟨false, true, []⟩ 4).1 rfl,
   by
    have h := ((cursor_close_callbacks_once 7 ⟨false, false, [4]⟩ 4).2.1 rfl).2
    simpa using h⟩

/-! ## Lemmas about transactions -/

theorem txCloseAllStreams_tx (h : Heap) (tx : TxState) :
    (txCloseAllStreams h tx).2.1 = { tx with streams := [] } := rfl

theorem txCloseAllStreams_events (h : Heap) (tx : TxState) :
    (txCloseAllStreams h tx).2.2 = (closeStreamList h tx.streams).2 := rfl

theorem isActive_streams_irrelevant (tx : TxState) (l : List Nat) :
    TxState.isActive { tx with streams := l } = tx.isActive := rfl

theorem txAsyncDispose_of_active (h : Heap) (tx : TxState) (ok : Bool)
    (hact : tx.isActive = true) :
    txAsyncDispose h tx ok
      = ((closeStreamList h tx.streams).1,
          { tx with streams := [], rolledBack := true },
          (closeStreamList h tx.streams).2 ++ [BOp.rollbackTx tx.id]) := by
  unfold txAsyncDispose
  simp [txCloseAllStreams, isActive_streams_irrelevant, hact]

theorem txAsyncDispose_of_inactive (h : Heap) (tx : TxState) (ok : Bool)
    (hact : tx.isActive = false) :
    txAsyncDispose h tx ok
      = ((closeStreamList h tx.streams).1, { tx with streams := [] },
          (closeStreamList h tx.streams).2) := by
  unfold txAsyncDispose
  simp [txCloseAllStreams, isActive_streams_irrelevant, hact]

theorem txAsyncDispose_result_inactive (h : Heap) (tx : TxState) (ok : Bool) :
    (txAsyncDispose h tx ok).2.1.isActive = false ∧
      (txAsyncDispose h tx ok).2.1.streams = [] := by
  by_cases hact : tx.isActive = true
  · rw [txAsyncDispose_of_active h tx ok hact]
    exact ⟨by simp [TxState.isActive], rfl⟩
  · rw [txAsyncDispose_of_inactive h tx ok (by simpa using hact)]
    refine ⟨?_, rfl⟩
    rw [isActive_streams_irrelevant]
    simpa using hact

/-! ## C3: isActive invariant and fail-fast -/

/-- C3: `isActive` holds iff the transaction is neither committed nor rolled
back, and when `isActive` is false every operation bound to the transaction —
`commit()`, `rollback()`, and any command issued with it — fails with the
"transaction no longer active" error without issuing any boundary call. -/
theorem transaction_inactive_fails_fast (tx : TxState) :
    (tx.isActive = true ↔ tx.committed = false ∧ tx.rolledBack = false) ∧
    (tx.isActive = false →
      (∀ ok, txCommit tx ok
          = (tx, [], Except.error "Transaction is no longer active")) ∧
      (∀ ok, txRollback tx ok
          = (tx, [], Except.error "Transaction is no longer active")) ∧
      (∀ st ok, st.disposed = false →
        connQuery st (some tx) ok
          = (st, [], Except.error "Transaction is no longer active"))) := by
  refine ⟨by simp [TxState.isActive], fun h => ⟨fun ok => ?_, fun ok => ?_, ?_⟩⟩
  · simp [txCommit, h]
  · simp [txRollback, h]
  · intro st ok hd
    simp [connQuery, hd, h]

theorem transaction_inactive_fails_fast_witness :
    txCommit ⟨9, true, false, []⟩ true
        = (⟨9, true, false, []⟩, [], Except.error "Transaction is no longer active") ∧
    connQuery ⟨11, none, false, false, [], [], []⟩ (some ⟨9, true, false, []⟩) true
        = (⟨11, none, false, false, [], [], []⟩, [],
            Except.error "Transaction is no longer active") :=
  ⟨((transaction_inactive_fails_fast ⟨9, true, false, []⟩).2 rfl).1 true,
   ((transaction_inactive_fails_fast ⟨9, true, false, []⟩).2 rfl).2.2
    ⟨11, none, false, false, [], [], []⟩ true rfl⟩

/-! ## C4: implicit rollback on dispose -/

/-- C4 counterexample: a committed transaction that still tracks an open
cursor.  Its asynchronous disposal is not free of boundary calls, contrary to
the claim: it issues the cursor-close boundary operation for the tracked
stream. -/
theorem tx_dispose_after_commit_counterexample :
    (⟨9, true, false, [5]⟩ : TxState).isActive = false ∧
    (txAsyncDispose [(5, ⟨false, false, []⟩)] ⟨9, true, false, [5]⟩ true).2.2
        = [BOp.streamClose 5] ∧
    (txAsyncDispose [(5, ⟨false, false, []⟩)] ⟨9, true, false, [5]⟩ true).2.2
        ≠ [] :=
  ⟨rfl, rfl, by decide⟩

/-- C4 (amended): a transaction disposed while still active issues exactly one
rollback boundary call, whose failure is swallowed (the outcome does not
depend on whether the boundary rollback succeeds); a transaction disposed
after an explicit commit or rollback issues no further transaction boundary
call (no rollback and no commit — though still-open tracked cursors are
closed); and repeated disposal is a complete no-op. -/
theorem tx_dispose_rollback_once (h : Heap) (tx : TxState) (ok : Bool) :
    (tx.isActive = true →
      (txAsyncDispose h tx ok).2.2.count (BOp.rollbackTx tx.id) = 1 ∧
      txAsyncDispose h tx ok = txAsyncDispose h tx true) ∧
    (tx.isActive = false →
      (∀ t, BOp.rollbackTx t ∉ (txAsyncDispose h tx ok).2.2) ∧
      (∀ t, BOp.commitTx t ∉ (txAsyncDispose h tx ok).2.2)) ∧
    (txAsyncDispose (txAsyncDispose h tx ok).1 (txAsyncDispose h tx ok).2.1 ok
      = ((txAsyncDispose h tx ok).1, (txAsyncDispose h tx ok).2.1, [])) := by
  have hnot : ∀ (h' : Heap) (ids : List Nat) (t : Nat),
      BOp.rollbackTx t ∉ (closeStreamList h' ids).2 := by
    intro h' ids t hmem
    rcases isStreamCleanupOp_closeStreamList h' ids _ hmem with ⟨_, h1⟩ | ⟨_, h1⟩ <;>
      exact BOp.noConfusion h1
  have hnotc : ∀ (h' : Heap) (ids : List Nat) (t : Nat),
      BOp.commitTx t ∉ (closeStreamList h' ids).2 := by
    intro h' ids t hmem
    rcases isStreamCleanupOp_closeStreamList h' ids _ hmem with ⟨_, h1⟩ | ⟨_, h1⟩ <;>
      exact BOp.noConfusion h1
  refine ⟨fun hact => ⟨?_, ?_⟩, fun hact => ⟨?_, ?_⟩, ?_⟩
  · rw [txAsyncDispose_of_active h tx ok hact]
    rw [List.count_append]
    rw [List.count_eq_zero.mpr (hnot h tx.streams tx.id)]
    simp
  · rw [txAsyncDispose_of_active h tx ok hact,
      txAsyncDispose_of_active h tx true hact]
  · intro t
    rw [txAsyncDispose_of_inactive h tx ok hact]
    exact hnot h tx.streams t
  · intro t
    rw [txAsyncDispose_of_inactive h tx ok hact]
    exact hnotc h tx.streams t
  · obtain ⟨h1, h2⟩ := txAsyncDispose_result_inactive h tx ok
    rw [txAsyncDispose_of_inactive _ _ ok h1, h2]
    simp only [closeStreamList, Prod.mk.injEq]
    refine ⟨trivial, ?_, trivial⟩
    conv_lhs => rw [← h2]

theorem tx_dispose_rollback_once_witness :
    (txAsyncDispose [] ⟨9, false, false, []⟩ false).2.2.count (BOp.rollbackTx 9) = 1 ∧
    (∀ t, BOp.rollbackTx t ∉ (txAsyncDispose [] ⟨9, true, false, []⟩ true).2.2) :=
  ⟨((tx_dispose_rollback_once [] ⟨9, false, false, []⟩ false).1 rfl).1,
   ((tx_dispose_rollback_once [] ⟨9, true, false, []⟩ true).2.1 rfl).1⟩

/-! ## C10: terminal flags only on boundary success -/

/-- C10: when the commit (resp. rollback) boundary call fails, the
transaction's state is unchanged — neither terminal flag is set, the
transaction stays active, and the error is surfaced; the terminal flag is set
only when the boundary call succeeds. -/
theorem tx_terminal_only_on_success (tx : TxState) (hact : tx.isActive = true) :
    txCommit tx false = (tx, [BOp.commitTx tx.id], Except.error "Commit failed") ∧
    txRollback tx false
        = (tx, [BOp.rollbackTx tx.id], Except.error "Rollback failed") ∧
    (txCommit tx false).1.isActive = true ∧
    (txRollback tx false).1.isActive = true ∧
    (txCommit tx true).1.committed = true ∧
    (txRollback tx true).1.rolledBack = true := by
  refine ⟨by simp [txCommit, hact], by simp [txRollback, hact], ?_, ?_, ?_, ?_⟩
  · simp [txCommit, hact]
  · simp [txRollback, hact]
  · simp [txCommit, hact]
  · simp [txRollback, hact]

theorem tx_terminal_only_on_success_witness :
    txCommit ⟨9, false, false, []⟩ false
        = (⟨9, false, false, []⟩, [BOp.commitTx 9], Except.error "Commit failed") ∧
    (txCommit ⟨9, false, false, []⟩ true).1.committed = true :=
  ⟨(tx_terminal_only_on_success ⟨9, false, false, []⟩ rfl).1,
   (tx_terminal_only_on_success ⟨9, false, false, []⟩ rfl).2.2.2.2.1⟩

/-! ## Lemmas about the connection disposal cascade -/

theorem isCleanupOp_txAsyncDispose (h : Heap) (tx : TxState) (ok : Bool) :
    ∀ e ∈ (txAsyncDispose h tx ok).2.2, IsCleanupOp e := by
  intro e he
  by_cases hact : tx.isActive = true
  · rw [txAsyncDispose_of_active h tx ok hact] at he
    rcases List.mem_append.mp he with he | he
    · exact Or.inl (isStreamCleanupOp_closeStreamList _ _ e he)
    · simp only [List.mem_singleton] at he
      exact Or.inr ⟨tx.id, he⟩
  · rw [txAsyncDispose_of_inactive h tx ok (by simpa using hact)] at he
    exact Or.inl (isStreamCleanupOp_closeStreamList _ _ e he)

theorem isCleanupOp_disposeTxList (h : Heap) (txs : List TxState) :
    ∀ e ∈ (disposeTxList h txs).2, IsCleanupOp e := by
  induction txs generalizing h with
  | nil => simp [disposeTxList]
  | cons tx rest ih =>
      intro e he
      simp only [disposeTxList, List.mem_append] at he
      rcases he with he | he
      · exact isCleanupOp_txAsyncDispose h tx true e he
      · exact ih _ e he

theorem isCleanupOp_connCleanup (st : ConnState) :
    ∀ e ∈ (connCleanup st).2, IsCleanupOp e := by
  intro e he
  simp only [connCleanup, List.mem_append] at he
  rcases he with he | he
  · exact isCleanupOp_disposeTxList _ _ e he
  · exact Or.inl (isStreamCleanupOp_closeStreamList _ _ e he)

theorem txForceInactive_events (h : Heap) (tx : TxState) :
    (txForceInactive h tx).2.2 = (closeStreamList h tx.streams).2 := by
  unfold txForceInactive
  by_cases hact : (txCloseAllStreams h tx).2.1.isActive = true <;> simp [hact] <;> rfl

theorem isStreamCleanupOp_syncCleanupTxList (h : Heap) (txs : List TxState) :
    ∀ e ∈ (syncCleanupTxList h txs).2.1, IsStreamCleanupOp e := by
  induction txs generalizing h with
  | nil => simp [syncCleanupTxList]
  | cons tx rest ih =>
      intro e he
      simp only [syncCleanupTxList, List.mem_append] at he
      rcases he with he | he
      · rw [txForceInactive_events] at he
        exact isStreamCleanupOp_closeStreamList _ _ e he
      · exact ih _ e he

theorem isCleanupOp_connSyncCleanup (st : ConnState) :
    ∀ e ∈ (connSyncCleanup st).2.1, IsCleanupOp e := by
  intro e he
  simp only [connSyncCleanup, List.mem_append] at he
  rcases he with he | he
  · exact Or.inl (isStreamCleanupOp_syncCleanupTxList _ _ e he)
  · exact Or.inl (isStreamCleanupOp_closeStreamList _ _ e he)

theorem syncCleanupTxList_had (h : Heap) (txs : List TxState) :
    (syncCleanupTxList h txs).2.2 = txs.any (fun tx => tx.isActive) := by
  induction txs generalizing h with
  | nil => simp [syncCleanupTxList]
  | cons tx rest ih => simp [syncCleanupTxList, ih]

theorem connCleanup_fields (st : ConnState) :
    (connCleanup st).1.connId = st.connId ∧
    (connCleanup st).1.poolId = st.poolId ∧
    (connCleanup st).1.hasError = st.hasError := ⟨rfl, rfl, rfl⟩

theorem connSyncCleanup_fields (st : ConnState) :
    (connSyncCleanup st).1.connId = st.connId ∧
    (connSyncCleanup st).1.poolId = st.poolId ∧
    (connSyncCleanup st).1.hasError = st.hasError := ⟨rfl, rfl, rfl⟩

theorem connFinalOp_pooled (st : ConnState) (p : Nat) (hp : st.poolId = some p)
    (he : st.hasError = false) :
    connFinalOp st = BOp.poolRelease p st.connId := by
  simp [connFinalOp, hp, he]

theorem connFinalOp_evict (st : ConnState)
    (hcase : st.hasError = true ∨ st.poolId = none) :
    connFinalOp st = BOp.disconnect st.connId := by
  rcases hcase with he | hp
  · unfold connFinalOp
    cases hps : st.poolId with
    | none => rfl
    | some q => simp [he]
  · simp [connFinalOp, hp]

theorem connSyncFinalOp_evict_had (st : ConnState) :
    connSyncFinalOp st true = BOp.disconnect st.connId := by
  unfold connSyncFinalOp
  cases hps : st.poolId with
  | none => rfl
  | some q => simp

theorem connAsyncDispose_events (st : ConnState) (hd : st.disposed = false) :
    (connAsyncDispose st).2
      = (connCleanup { st with disposed := true }).2
          ++ [connFinalOp (connCleanup { st with disposed := true }).1] := by
  unfold connAsyncDispose
  rw [if_neg (by simp [hd])]

theorem connSyncDispose_events (st : ConnState) (hd : st.disposed = false) :
    (connSyncDispose st).2
      = (connSyncCleanup { st with disposed := true }).2.1
          ++ [connSyncFinalOp (connSyncCleanup { st with disposed := true }).1
                (connSyncCleanup { st with disposed := true }).2.2] := by
  unfold connSyncDispose
  rw [if_neg (by simp [hd])]

theorem connAsyncDispose_events_pooled (st : ConnState)
    (hd : st.disposed = false) (p : Nat) (hp : st.poolId = some p)
    (he : st.hasError = false) :
    (connAsyncDispose st).2
      = (connCleanup { st with disposed := true }).2
          ++ [BOp.poolRelease p st.connId] := by
  rw [connAsyncDispose_events st hd,
    connFinalOp_pooled _ p (by rw [(connCleanup_fields _).2.1]; exact hp)
      (by rw [(connCleanup_fields _).2.2]; exact he),
    (connCleanup_fields _).1]

theorem connAsyncDispose_events_evict (st : ConnState)
    (hd : st.disposed = false)
    (hcase : st.hasError = true ∨ st.poolId = none) :
    (connAsyncDispose st).2
      = (connCleanup { st with disposed := true }).2
          ++ [BOp.disconnect st.connId] := by
  rw [connAsyncDispose_events st hd]
  rw [connFinalOp_evict _ ?_, (connCleanup_fields _).1]
  rcases hcase with he | hp
  · exact Or.inl (by rw [(connCleanup_fields _).2.2]; exact he)
  · exact Or.inr (by rw [(connCleanup_fields _).2.1]; exact hp)

theorem connSyncDispose_events_evict_activeTx (st : ConnState)
    (hd : st.disposed = false)
    (htx : ∃ tx ∈ st.transactions, tx.isActive = true) :
    (connSyncDispose st).2
      = (connSyncCleanup { st with disposed := true }).2.1
          ++ [BOp.disconnect st.connId] := by
  rw [connSyncDispose_events st hd]
  have hhad : (connSyncCleanup { st with disposed := true }).2.2 = true := by
    show (syncCleanupTxList _ _).2.2 = true
    rw [syncCleanupTxList_had]
    rcases htx with ⟨tx, hmem, hact⟩
    exact List.any_eq_true.mpr ⟨tx, hmem, hact⟩
  rw [hhad, connSyncFinalOp_evict_had, (connSyncCleanup_fields _).1]

/-! ## C1: disposal routing (pool release vs. eviction) -/

/-- C1: asynchronous disposal of a pool-owned, error-free connection releases
it to the pool and never disconnects; asynchronous disposal of an
error-flagged or standalone connection disconnects and never releases to the
pool; and synchronous disposal with some owned transaction still active
evicts (disconnects) rather than releasing to the pool. -/
theorem connection_disposal_routing (st : ConnState) (hd : st.disposed = false) :
    (∀ p, st.poolId = some p → st.hasError = false →
      BOp.poolRelease p st.connId ∈ (connAsyncDispose st).2 ∧
        ∀ n, BOp.disconnect n ∉ (connAsyncDispose st).2) ∧
    (st.hasError = true ∨ st.poolId = none →
      BOp.disconnect st.connId ∈ (connAsyncDispose st).2 ∧
        ∀ p n, BOp.poolRelease p n ∉ (connAsyncDispose st).2) ∧
    ((∃ tx ∈ st.transactions, tx.isActive = true) →
      BOp.disconnect st.connId ∈ (connSyncDispose st).2 ∧
        ∀ p n, BOp.poolRelease p n ∉ (connSyncDispose st).2) := by
  refine ⟨fun p hp he => ⟨?_, fun n hn => ?_⟩,
    fun hcase => ⟨?_, fun p n hn => ?_⟩, fun htx => ⟨?_, fun p n hn => ?_⟩⟩
  · rw [connAsyncDispose_events_pooled st hd p hp he]
    exact List.mem_append_right _ (List.mem_singleton.mpr rfl)
  · rw [connAsyncDispose_events_pooled st hd p hp he] at hn
    rcases List.mem_append.mp hn with hn | hn
    · rcases isCleanupOp_connCleanup _ _ hn with (⟨_, h1⟩ | ⟨_, h1⟩) | ⟨_, h1⟩ <;>
        exact BOp.noConfusion h1
    · simp at hn
  · rw [connAsyncDispose_events_evict st hd hcase]
    exact List.mem_append_right _ (List.mem_singleton.mpr rfl)
  · rw [connAsyncDispose_events_evict st hd hcase] at hn
    rcases List.mem_append.mp hn with hn | hn
    · rcases isCleanupOp_connCleanup _ _ hn with (⟨_, h1⟩ | ⟨_, h1⟩) | ⟨_, h1⟩ <;>
        exact BOp.noConfusion h1
    · simp at hn
  · rw [connSyncDispose_events_evict_activeTx st hd htx]
    exact List.mem_append_right _ (List.mem_singleton.mpr rfl)
  · rw [connSyncDispose_events_evict_activeTx st hd htx] at hn
    rcases List.mem_append.mp hn with hn | hn
    · rcases isCleanupOp_connSyncCleanup _ _ hn with (⟨_, h1⟩ | ⟨_, h1⟩) | ⟨_, h1⟩ <;>
        exact BOp.noConfusion h1
    · simp at hn

theorem connection_disposal_routing_witness :
    BOp.poolRelease 3 11 ∈ (connAsyncDispose ⟨11, some 3, false, false, [], [], []⟩).2 ∧
    BOp.disconnect 12 ∈ (connAsyncDispose ⟨12, none, false, false, [], [], []⟩).2 ∧
    BOp.disconnect 13 ∈
      (connSyncDispose ⟨13, some 3, false, false, [], [⟨9, false, false, []⟩], []⟩).2 :=
  ⟨((connection_disposal_routing ⟨11, some 3, false, false, [], [], []⟩ rfl).1
      3 rfl rfl).1,
   ((connection_disposal_routing ⟨12, none, false, false, [], [], []⟩ rfl).2.1
      (Or.inr rfl)).1,
   ((connection_disposal_routing ⟨13, some 3, false, false, [], [⟨9, false, false, []⟩], []⟩
      rfl).2.2 ⟨⟨9, false, false, []⟩, by simp, rfl⟩).1⟩

/-! ## Lemmas about the stream heap, for the C5 ordering property -/

theorem hFind_hSet_ne (h : Heap) (d c : Nat) (s' : StreamState) (hne : c ≠ d) :
    hFind (hSet h d s') c = hFind h c := by
  induction h with
  | nil => rfl
  | cons kv rest ih =>
      obtain ⟨k, s⟩ := kv
      by_cases hk : k = d
      · subst hk
        simp only [hSet, if_pos rfl, hFind]
        rw [if_neg (fun hc => hne hc.symm), if_neg (fun hc => hne hc.symm)]
      · simp only [hSet, if_neg hk, hFind]
        by_cases hkc : k = c
        · simp [hkc]
        · simp only [if_neg hkc]
          exact ih

theorem hFind_heapCloseStream_ne (h : Heap) (d c : Nat) (hne : c ≠ d) :
    hFind (heapCloseStream h d).1 c = hFind h c := by
  unfold heapCloseStream
  cases hf : hFind h d with
  | none => rfl
  | some s => exact hFind_hSet_ne h d c _ hne

theorem hFind_closeStreamList_not_mem (ids : List Nat) (h : Heap) (c : Nat)
    (hnmem : c ∉ ids) :
    hFind (closeStreamList h ids).1 c = hFind h c := by
  induction ids generalizing h with
  | nil => rfl
  | cons d rest ih =>
      have hne : c ≠ d := fun hc => hnmem (hc ▸ List.mem_cons_self d rest)
      have hnm : c ∉ rest := fun hc => hnmem (List.mem_cons_of_mem d hc)
      show hFind (closeStreamList (heapCloseStream h d).1 rest).1 c = hFind h c
      rw [ih _ hnm, hFind_heapCloseStream_ne h d c hne]

theorem streamClose_mem_closeStreamList (ids : List Nat) (h : Heap)
    (c : Nat) (s : StreamState) (hmem : c ∈ ids) (hfind : hFind h c = some s)
    (hopen : s.closed = false) :
    BOp.streamClose c ∈ (closeStreamList h ids).2 := by
  induction ids generalizing h s with
  | nil => cases hmem
  | cons d rest ih =>
      show BOp.streamClose c ∈
        (heapCloseStream h d).2 ++ (closeStreamList (heapCloseStream h d).1 rest).2
      by_cases hdc : d = c
      · subst hdc
        refine List.mem_append_left _ ?_
        unfold heapCloseStream
        rw [hfind]
        rw [closeStream_events_of_open d s hopen]
        exact List.mem_cons_self _ _
      · have hmem' : c ∈ rest := by
          rcases List.mem_cons.mp hmem with hc | hc
          · exact absurd hc.symm hdc
          · exact hc
        refine List.mem_append_right _ ?_
        exact ih _ s hmem'
          (by rw [hFind_heapCloseStream_ne h d c (fun hc => hdc hc.symm)]; exact hfind)
          hopen

theorem txAsyncDispose_heap (h : Heap) (tx : TxState) (ok : Bool) :
    (txAsyncDispose h tx ok).1 = (closeStreamList h tx.streams).1 := by
  by_cases hact : tx.isActive = true
  · rw [txAsyncDispose_of_active h tx ok hact]
  · rw [txAsyncDispose_of_inactive h tx ok (by simpa using hact)]

theorem disposeTxList_close_before_rollback (txs : List TxState) (h : Heap)
    (tx : TxState) (c : Nat) (s : StreamState)
    (htx : tx ∈ txs) (hact : tx.isActive = true) (hmem : c ∈ tx.streams)
    (hfind : hFind h c = some s) (hopen : s.closed = false)
    (hexcl : ∀ tx' ∈ txs, c ∈ tx'.streams → tx' = tx) :
    ∃ pre post, (disposeTxList h txs).2
        = pre ++ BOp.rollbackTx tx.id :: post ∧ BOp.streamClose c ∈ pre := by
  induction txs generalizing h s with
  | nil => cases htx
  | cons tx0 rest ih =>
      have hshape : (disposeTxList h (tx0 :: rest)).2
          = (txAsyncDispose h tx0 true).2.2
              ++ (disposeTxList (txAsyncDispose h tx0 true).1 rest).2 := rfl
      by_cases heq : tx0 = tx
      · subst heq
        refine ⟨(closeStreamList h tx0.streams).2,
          (disposeTxList (txAsyncDispose h tx0 true).1 rest).2, ?_,
          streamClose_mem_closeStreamList tx0.streams h c s hmem hfind hopen⟩
        rw [hshape, txAsyncDispose_of_active h tx0 true hact]
        simp
      · have htx' : tx ∈ rest := by
          rcases List.mem_cons.mp htx with hc | hc
          · exact absurd hc.symm heq
          · exact hc
        have hnmem : c ∉ tx0.streams := fun hc =>
          heq (hexcl tx0 (List.mem_cons_self tx0 rest) hc)
        have hfind' : hFind (txAsyncDispose h tx0 true).1 c = some s := by
          rw [txAsyncDispose_heap,
            hFind_closeStreamList_not_mem tx0.streams h c hnmem]
          exact hfind
        obtain ⟨pre, post, hdec, hcl⟩ := ih _ s htx' hfind' hopen
          (fun tx' h1 h2 => hexcl tx' (List.mem_cons_of_mem tx0 h1) h2)
        refine ⟨(txAsyncDispose h tx0 true).2.2 ++ pre, post, ?_, ?_⟩
        · rw [hshape, hdec, List.append_assoc]
        · exact List.mem_append_right _ hcl

theorem connCleanup_events (st : ConnState) :
    (connCleanup st).2
      = (disposeTxList st.heap st.transactions).2
          ++ (closeStreamList (disposeTxList st.heap st.transactions).1
                st.streams).2 := rfl

theorem connAsyncDispose_events_decomp (st : ConnState)
    (hd : st.disposed = false) :
    (connAsyncDispose st).2
      = (disposeTxList st.heap st.transactions).2
          ++ ((closeStreamList (disposeTxList st.heap st.transactions).1
                st.streams).2
              ++ [connFinalOp (connCleanup { st with disposed := true }).1]) := by
  rw [connAsyncDispose_events st hd, connCleanup_events]
  simp [List.append_assoc]

/-! ## C5: cursor close ordered before rollback -/

/-- C5: when a still-active transaction tracks an open cursor, disposing the
transaction — or asynchronously disposing the owning connection — emits the
boundary close of that cursor strictly before the transaction's rollback
boundary call.  (Cursor tracking is exclusive to one transaction, per the
ownership model.) -/
theorem cursor_close_before_rollback (st : ConnState) (tx : TxState)
    (c : Nat) (s : StreamState) (ok : Bool)
    (hd : st.disposed = false)
    (htx : tx ∈ st.transactions) (hact : tx.isActive = true)
    (hmem : c ∈ tx.streams)
    (hfind : hFind st.heap c = some s) (hopen : s.closed = false)
    (hexcl : ∀ tx' ∈ st.transactions, c ∈ tx'.streams → tx' = tx) :
    (∃ pre post, (txAsyncDispose st.heap tx ok).2.2
        = pre ++ BOp.rollbackTx tx.id :: post ∧ BOp.streamClose c ∈ pre) ∧
    (∃ pre post, (connAsyncDispose st).2
        = pre ++ BOp.rollbackTx tx.id :: post ∧ BOp.streamClose c ∈ pre) := by
  constructor
  · rw [txAsyncDispose_of_active st.heap tx ok hact]
    exact ⟨(closeStreamList st.heap tx.streams).2, [], by simp,
      streamClose_mem_closeStreamList tx.streams st.heap c s hmem hfind hopen⟩
  · obtain ⟨pre, post, hdec, hcl⟩ :=
      disposeTxList_close_before_rollback st.transactions st.heap tx c s
        htx hact hmem hfind hopen hexcl
    refine ⟨pre,
      post ++ ((closeStreamList (disposeTxList st.heap st.transactions).1
            st.streams).2
          ++ [connFinalOp (connCleanup { st with disposed := true }).1]),
      ?_, hcl⟩
    rw [connAsyncDispose_events_decomp st hd, hdec]
    simp [List.append_assoc]

theorem cursor_close_before_rollback_witness :
    ∃ pre post,
      (connAsyncDispose
          ⟨11, some 3, false, false, [5], [⟨9, false, false, [5]⟩],
            [(5, ⟨false, false, []⟩)]⟩).2
        = pre ++ BOp.rollbackTx 9 :: post ∧ BOp.streamClose 5 ∈ pre :=
  (cursor_close_before_rollback
    ⟨11, some 3, false, false, [5], [⟨9, false, false, [5]⟩],
      [(5, ⟨false, false, []⟩)]⟩
    ⟨9, false, false, [5]⟩ 5 ⟨false, false, []⟩ true rfl
    (List.mem_singleton.mpr rfl) rfl (List.mem_singleton.mpr rfl) rfl rfl
    (fun _ h1 _ => List.mem_singleton.mp h1)).2

/-! ## Lemmas about base64 -/

theorem b64Index_b64Char : ∀ n : Nat, n < 64 → b64Index (b64Char n) = some n := by
  decide

theorem b64Char_ne_pad : ∀ n : Nat, n < 64 → b64Char n ≠ '=' := by
  decide

theorem base64DecodeL_encodeL : ∀ bs : List Nat, (∀ b ∈ bs, b < 256) →
    base64DecodeL (base64EncodeL bs) = some bs
  | [], _ => rfl
  | [a], h => by
      have ha : a < 256 := h a (by simp)
      have h1 : b64Index (b64Char (a / 4)) = some (a / 4) :=
        b64Index_b64Char _ (by omega)
      have h2 : b64Index (b64Char (a % 4 * 16)) = some (a % 4 * 16) :=
        b64Index_b64Char _ (by omega)
      show base64DecodeL [b64Char (a / 4), b64Char (a % 4 * 16), '=', '='] = _
      simp only [base64DecodeL, h1, h2, eq_self_iff_true, and_self, and_true,
        if_true]
      rw [if_pos (Nat.mul_mod_left (a % 4) 16)]
      simp only [Option.some.injEq, List.cons.injEq, and_true]
      omega
  | [a, b], h => by
      have ha : a < 256 := h a (by simp)
      have hb : b < 256 := h b (by simp)
      have h1 : b64Index (b64Char (a / 4)) = some (a / 4) :=
        b64Index_b64Char _ (by omega)
      have h2 : b64Index (b64Char (a % 4 * 16 + b / 16)) = some (a % 4 * 16 + b / 16) :=
        b64Index_b64Char _ (by omega)
      have h3 : b64Index (b64Char (b % 16 * 4)) = some (b % 16 * 4) :=
        b64Index_b64Char _ (by omega)
      have hne3 : b64Char (b % 16 * 4) ≠ '=' := b64Char_ne_pad _ (by omega)
      show base64DecodeL
        [b64Char (a / 4), b64Char (a % 4 * 16 + b / 16), b64Char (b % 16 * 4), '='] = _
      simp only [base64DecodeL, h1, h2, h3, eq_self_iff_true, and_self,
        and_true, if_true]
      rw [if_neg hne3, if_pos (Nat.mul_mod_left (b % 16) 4)]
      simp only [Option.some.injEq, List.cons.injEq, and_true]
      omega
  | a :: b :: c :: rest', h => by
      have ih := base64DecodeL_encodeL rest'
        (fun x hx => h x (by simp [hx]))
      have ha : a < 256 := h a (by simp)
      have hb : b < 256 := h b (by simp)
      have hc : c < 256 := h c (by simp)
      have h1 : b64Index (b64Char (a / 4)) = some (a / 4) :=
        b64Index_b64Char _ (by omega)
      have h2 : b64Index (b64Char (a % 4 * 16 + b / 16)) = some (a % 4 * 16 + b / 16) :=
        b64Index_b64Char _ (by omega)
      have h3 : b64Index (b64Char (b % 16 * 4 + c / 64)) = some (b % 16 * 4 + c / 64) :=
        b64Index_b64Char _ (by omega)
      have h4 : b64Index (b64Char (c % 64)) = some (c % 64) :=
        b64Index_b64Char _ (by omega)
      have hne3 : b64Char (b % 16 * 4 + c / 64) ≠ '=' := b64Char_ne_pad _ (by omega)
      have hne4 : b64Char (c % 64) ≠ '=' := b64Char_ne_pad _ (by omega)
      show base64DecodeL
        (b64Char (a / 4) :: b64Char (a % 4 * 16 + b / 16) ::
          b64Char (b % 16 * 4 + c / 64) :: b64Char (c % 64) ::
          base64EncodeL rest') = _
      simp only [base64DecodeL, h1, h2, h3, h4, ih]
      rw [if_neg (fun hcond => hne3 hcond.1),
        if_neg (fun hcond => hne4 hcond.1)]
      simp only [Option.some.injEq, List.cons.injEq]
      refine ⟨by omega, by omega, by omega, trivial⟩

/-! ## C9: binary parameter base64 round-trip -/

/-- C9: a binary (byte-array) parameter value is serialized to its base64
text, and decoding that text reproduces the original bytes exactly. -/
theorem binary_param_base64_roundtrip (bs : List Nat) (h : ∀ b ∈ bs, b < 256) :
    serializeValue (PlainValue.bytesV bs) = JsonValue.strJ (base64Encode bs) ∧
    base64Decode (base64Encode bs) = some bs := by
  refine ⟨rfl, ?_⟩
  show base64DecodeL (String.mk (base64EncodeL bs)).data = some bs
  show base64DecodeL (base64EncodeL bs) = some bs
  exact base64DecodeL_encodeL bs h

theorem binary_param_base64_roundtrip_witness :
    base64Decode (base64Encode [77, 97, 110, 0, 255]) = some [77, 97, 110, 0, 255] :=
  (binary_param_base64_roundtrip [77, 97, 110, 0, 255] (by decide)).2

/-! ## C8: parameter serialization rules -/

/-- C8: command serialization maps each parameter entry as follows: a null or
absent value serializes to `null`; a `Date` serializes to its ISO-8601 text; a
byte array serializes to its base64 text; the typed-parameter shape keeps its
declared type and output flag; every other value is passed through with type
`null` (and no output flag). -/
theorem param_serialization_rules (name : String) :
    serializeParam name (ParamInput.plain PlainValue.nullV)
        = ⟨name, JsonValue.nullJ, none, false⟩ ∧
    (∀ iso, serializeParam name (ParamInput.plain (PlainValue.dateV iso))
        = ⟨name, JsonValue.strJ iso, none, false⟩) ∧
    (∀ bs, serializeParam name (ParamInput.plain (PlainValue.bytesV bs))
        = ⟨name, JsonValue.strJ (base64Encode bs), none, false⟩) ∧
    (∀ v ty out, serializeParam name (ParamInput.typed v ty out)
        = ⟨name, serializeValue v, some ty, out⟩) ∧
    (∀ v, (serializeParam name (ParamInput.plain v)).type = none ∧
      (serializeParam name (ParamInput.plain v)).output = false) ∧
    (∀ entries, serializeParams entries
        = entries.map fun e => serializeParam e.1 e.2) :=
  ⟨rfl, fun _ => rfl, fun _ => rfl, fun _ _ _ => rfl,
    fun _ => ⟨rfl, rfl⟩, fun _ => rfl⟩

/-! ## Lemmas about the pool registry -/

theorem storePool_fresh (r : PoolRegistry) (key : String)
    (hfresh : ∀ e ∈ r.pools, e.key ≠ key) :
    storePool r key
      = (⟨⟨key, r.nextId, 1⟩ :: r.pools, r.nextId + 1⟩, r.nextId,
          [BOp.poolCreate r.nextId]) := by
  unfold storePool
  rw [List.find?_eq_none.mpr (fun e he => by simp [hfresh e he])]

theorem storePool_hit (key : String) (pid m nextId : Nat)
    (rest : List PoolEntry) (hrest : ∀ e ∈ rest, e.key ≠ key) :
    storePool ⟨⟨key, pid, m⟩ :: rest, nextId⟩ key
      = (⟨⟨key, pid, m + 1⟩ :: rest, nextId⟩, pid, []) := by
  have hmap : rest.map
      (fun e => if e.key = key then { e with refCount := e.refCount + 1 } else e)
        = rest := by
    rw [List.map_congr_left (fun e he => by
        rw [if_neg (hrest e he)]; rfl : ∀ e ∈ rest, _ = id e),
      List.map_id]
  unfold storePool
  rw [List.find?_cons_of_pos _ (by simp)]
  simp [hmap]

theorem openN_hit (key : String) (pid m nextId : Nat)
    (rest : List PoolEntry) (hrest : ∀ e ∈ rest, e.key ≠ key) :
    ∀ n, openN ⟨⟨key, pid, m⟩ :: rest, nextId⟩ key n
      = (⟨⟨key, pid, m + n⟩ :: rest, nextId⟩, List.replicate n pid,
          List.replicate n []) := by
  intro n
  induction n generalizing m with
  | zero => simp [openN]
  | succ k ih =>
      show openN _ key (k + 1) = _
      unfold openN
      rw [storePool_hit key pid m nextId rest hrest]
      have harith : m + (k + 1) = m + 1 + k := by omega
      rw [harith, ih (m + 1)]
      simp [List.replicate_succ]

theorem removePool_dec_step (key : String) (pid m nextId : Nat)
    (rest : List PoolEntry) (hm : 2 ≤ m)
    (hrest : ∀ e ∈ rest, e.poolId ≠ pid) :
    removePool ⟨⟨key, pid, m⟩ :: rest, nextId⟩ pid
      = (⟨⟨key, pid, m - 1⟩ :: rest, nextId⟩, []) := by
  have hmap : rest.map
      (fun e => if e.poolId = pid then { e with refCount := e.refCount - 1 } else e)
        = rest := by
    rw [List.map_congr_left (fun e he => by
        rw [if_neg (hrest e he)]; rfl : ∀ e ∈ rest, _ = id e),
      List.map_id]
  unfold removePool
  rw [List.find?_cons_of_pos _ (by simp)]
  simp only
  rw [if_neg (by simp; omega)]
  simp [hmap]

theorem removePool_last (key : String) (pid nextId : Nat)
    (rest : List PoolEntry) (hrest : ∀ e ∈ rest, e.poolId ≠ pid) :
    removePool ⟨⟨key, pid, 1⟩ :: rest, nextId⟩ pid
      = (⟨rest, nextId⟩, [BOp.poolDestroy pid]) := by
  have hfilter : (rest.filter fun e => e.poolId ≠ pid) = rest :=
    List.filter_eq_self.mpr (fun e he => by simp [hrest e he])
  unfold removePool
  rw [List.find?_cons_of_pos _ (by simp)]
  simp only
  rw [if_pos (by simp)]
  simp only [List.filter_cons]
  rw [if_neg (by simp)]
  rw [hfilter]

theorem closeN_dec (key : String) (pid nextId : Nat) (rest : List PoolEntry)
    (hrest : ∀ e ∈ rest, e.poolId ≠ pid) :
    ∀ n m, n < m →
      closeN ⟨⟨key, pid, m⟩ :: rest, nextId⟩ pid n
        = (⟨⟨key, pid, m - n⟩ :: rest, nextId⟩, List.replicate n []) := by
  intro n
  induction n with
  | zero => intro m _; simp [closeN]
  | succ k ih =>
      intro m hm
      show closeN _ pid (k + 1) = _
      unfold closeN
      rw [removePool_dec_step key pid m nextId rest (by omega) hrest]
      rw [ih (m - 1) (by omega)]
      have harith : m - 1 - k = m - (k + 1) := by omega
      rw [harith]
      simp [List.replicate_succ]

theorem closeN_destroy (key : String) (pid nextId : Nat)
    (rest : List PoolEntry) (hrest : ∀ e ∈ rest, e.poolId ≠ pid) :
    ∀ m, 1 ≤ m →
      closeN ⟨⟨key, pid, m⟩ :: rest, nextId⟩ pid m
        = (⟨rest, nextId⟩,
            List.replicate (m - 1) [] ++ [[BOp.poolDestroy pid]]) := by
  intro m
  induction m with
  | zero => omega
  | succ k ih =>
      intro _
      show closeN _ pid (k + 1) = _
      cases k with
      | zero =>
          unfold closeN
          rw [removePool_last key pid nextId rest hrest]
          simp [closeN]
      | succ j =>
          unfold closeN
          rw [removePool_dec_step key pid (j + 2) nextId rest (by omega) hrest]
          have hj : j + 2 - 1 = j + 1 := by omega
          rw [hj, ih (by omega)]
          simp [List.replicate_succ]

/-! ## C2: pool dedup and refcounted destroy -/

/-- C2: for a fresh identity, `n ≥ 1` opens followed by `n` closes of the
returned handle create the boundary pool exactly once (the first open; every
later open returns the same pool id with an empty boundary trace), keep a
single registry entry whose refcount is `n`, emit no destroy during the first
`n - 1` closes, destroy the boundary pool exactly once at the `n`-th close,
and deregister the key, restoring the original pool list. -/
theorem pool_dedup_refcount_destroy_once (r : PoolRegistry) (key : String)
    (n : Nat) (hn : 1 ≤ n) (hfresh : ∀ e ∈ r.pools, e.key ≠ key)
    (hwf : ∀ e ∈ r.pools, e.poolId < r.nextId) :
    (openN r key n).2.1 = List.replicate n r.nextId ∧
    (openN r key n).2.2
      = [BOp.poolCreate r.nextId] :: List.replicate (n - 1) [] ∧
    (openN r key n).1.pools = ⟨key, r.nextId, n⟩ :: r.pools ∧
    (closeN (openN r key n).1 r.nextId n).2
      = List.replicate (n - 1) [] ++ [[BOp.poolDestroy r.nextId]] ∧
    (closeN (openN r key n).1 r.nextId n).1 = ⟨r.pools, r.nextId + 1⟩ := by
  obtain ⟨k, rfl⟩ : ∃ k, n = k + 1 := ⟨n - 1, by omega⟩
  have hridne : ∀ e ∈ r.pools, e.poolId ≠ r.nextId :=
    fun e he => Nat.ne_of_lt (hwf e he)
  have hopen : openN r key (k + 1)
      = (⟨⟨key, r.nextId, 1 + k⟩ :: r.pools, r.nextId + 1⟩,
          r.nextId :: List.replicate k r.nextId,
          [BOp.poolCreate r.nextId] :: List.replicate k []) := by
    show ((openN (storePool r key).1 key k).1,
        (storePool r key).2.1 :: (openN (storePool r key).1 key k).2.1,
        (storePool r key).2.2 :: (openN (storePool r key).1 key k).2.2) = _
    rw [storePool_fresh r key hfresh]
    rw [openN_hit key r.nextId 1 (r.nextId + 1) r.pools hfresh k]
  rw [hopen]
  have h1k : 1 + k = k + 1 := by omega
  refine ⟨by rw [List.replicate_succ], by simp, by rw [h1k], ?_, ?_⟩
  · show (closeN ⟨⟨key, r.nextId, 1 + k⟩ :: r.pools, r.nextId + 1⟩
        r.nextId (k + 1)).2 = _
    rw [h1k, closeN_destroy key r.nextId (r.nextId + 1) r.pools hridne
      (k + 1) (by omega)]
  · show (closeN ⟨⟨key, r.nextId, 1 + k⟩ :: r.pools, r.nextId + 1⟩
        r.nextId (k + 1)).1 = _
    rw [h1k, closeN_destroy key r.nextId (r.nextId + 1) r.pools hridne
      (k + 1) (by omega)]

theorem pool_dedup_refcount_destroy_once_witness :
    (openN ⟨[], 1⟩ "server=db;app=x" 2).2.1 = [1, 1] ∧
    (closeN (openN ⟨[], 1⟩ "server=db;app=x" 2).1 1 2).2
      = [[], [BOp.poolDestroy 1]] := by
  have h := pool_dedup_refcount_destroy_once ⟨[], 1⟩ "server=db;app=x" 2
    (by omega) (by simp) (by simp)
  exact ⟨by rw [h.1]; rfl, by rw [h.2.2.2.1]; rfl⟩

end Mssql
